import Mathlib

set_option maxHeartbeats 1000000

set_option maxRecDepth 8000

/-!
Verification development for the CORHOH TEI/XML creator
(src/XML-Creator_CORHOH.py).

Text is modelled as `List Char` (named `Chars` below).  Python string
literals are written as Lean string literals followed by `.data`.  The
byte-level decoding step of `smart_read` (utf-8-sig with a cp1252
fallback) happens in external codecs and is outside the embedding: the
transcript store is modelled as a map from document id to the decoded
text, and the embedded `clean_content` is the replacement pass that
`smart_read` applies after decoding.  Whitespace (Python `\s` and
`str.strip`) is modelled over the ASCII and common Unicode space
characters; `\d` is modelled as the ASCII digits.
-/

abbrev Chars := List Char

/-- Python whitespace, as matched by `\s` in a str pattern and stripped by
`str.strip()`: ASCII whitespace plus the common Unicode space characters. -/
def pySpace (c : Char) : Bool :=
  (c == ' ') || (c == '\t') || (c == '\n') || (c == '\r') ||
  (c == '\x0b') || (c == '\x0c') || (c == '\x85') || (c == '\xa0') ||
  (c == ' ') || ((' ' ≤ c) && (c ≤ ' ')) ||
  (c == ' ') || (c == ' ') || (c == ' ') ||
  (c == ' ') || (c == '　')

/-- Python `str.strip()`: drop leading and trailing whitespace. -/
def pyStrip (s : Chars) : Chars :=
  ((s.dropWhile pySpace).reverse.dropWhile pySpace).reverse

/-- Python `str.rstrip("\n")`: drop trailing newline characters only. -/
def rstripNl (s : Chars) : Chars :=
  (s.reverse.dropWhile (fun c => c == '\n')).reverse

/-- Python `str.splitlines()`: split on the line boundary characters, with
`\r\n` as a single boundary and no empty trailing segment. -/
def splitlinesAux : Chars → Chars → List Chars
  | acc, [] => if acc.isEmpty then [] else [acc.reverse]
  | acc, '\r' :: '\n' :: t => acc.reverse :: splitlinesAux [] t
  | acc, '\n' :: t => acc.reverse :: splitlinesAux [] t
  | acc, '\r' :: t => acc.reverse :: splitlinesAux [] t
  | acc, '\x0b' :: t => acc.reverse :: splitlinesAux [] t
  | acc, '\x0c' :: t => acc.reverse :: splitlinesAux [] t
  | acc, '\x1c' :: t => acc.reverse :: splitlinesAux [] t
  | acc, '\x1d' :: t => acc.reverse :: splitlinesAux [] t
  | acc, '\x1e' :: t => acc.reverse :: splitlinesAux [] t
  | acc, '\x85' :: t => acc.reverse :: splitlinesAux [] t
  | acc, ' ' :: t => acc.reverse :: splitlinesAux [] t
  | acc, ' ' :: t => acc.reverse :: splitlinesAux [] t
  | acc, c :: t => splitlinesAux (c :: acc) t

def splitlines (s : Chars) : List Chars := splitlinesAux [] s

/-- Scanner for `str.replace`: when the skip counter is positive the
character was already consumed by an emitted replacement; at zero, an
occurrence of the pattern `p :: ps` at the head is replaced by `rep` and
the rest of the occurrence is skipped, any other character is copied. -/
def replaceAllGo (p : Char) (ps rep : Chars) : Nat → Chars → Chars
  | _, [] => []
  | Nat.succ skip, _ :: cs => replaceAllGo p ps rep skip cs
  | 0, c :: cs =>
    if (p :: ps).isPrefixOf (c :: cs) then
      rep ++ replaceAllGo p ps rep ps.length cs
    else
      c :: replaceAllGo p ps rep 0 cs

/-- Python `str.replace` for a nonempty pattern `p :: ps`: replace each
leftmost non-overlapping occurrence by `rep`, scanning left to right. -/
def replaceAll (p : Char) (ps rep : Chars) (s : Chars) : Chars :=
  replaceAllGo p ps rep 0 s

/-- Python substring membership, the `old in content` test. -/
def containsSub (pat : Chars) : Chars → Bool
  | [] => pat.isPrefixOf []
  | c :: cs => pat.isPrefixOf (c :: cs) || containsSub pat cs

/-- One entry of the replacement loop in `smart_read`:
`if old in content: content = content.replace(old, new)`. -/
def applyRule (content : Chars) (rule : Chars × Chars) : Chars :=
  match rule with
  | ([], _) => content
  | (p :: ps, rep) =>
    if containsSub (p :: ps) content then replaceAll p ps rep content else content

/-- The `replacements` dict of `smart_read`, in insertion order (Python
dicts iterate in insertion order). -/
def replacements : List (Chars × Chars) :=
  [(['Õ'], ['\'']),
   (['Ô'], ['\'']),
   (['Ò'], ['"']),
   (['Ó'], ['"']),
   (['Ñ'], ['—']),
   (['‹'], ['ã']),
   (['√', 'ï', 't'], ['\'', 't']),
   (['√', 'ï', 's'], ['\'', 's']),
   (['√', 'ï', 'l', 'l'], ['\'', 'l', 'l']),
   (['√', 'ï'], ['\''])]

/-- The replacement pass of `smart_read`, applied to the decoded text. -/
def clean_content (content : Chars) : Chars :=
  replacements.foldl applyRule content

/-- `xml.sax.saxutils.escape` with the default (empty) extra entities:
three successive `str.replace` calls, for `&`, then `<`, then `>`. -/
def escape (s : Chars) : Chars :=
  replaceAll '>' [] ("&gt;").data
    (replaceAll '<' [] ("&lt;").data
      (replaceAll '&' [] ("&amp;").data s))

/-- Character-wise description of `escape` (used to state the amended
escaping claim): what a single character becomes in the output. -/
def escChar (c : Char) : Chars :=
  if c = '&' then ("&amp;").data
  else if c = '<' then ("&lt;").data
  else if c = '>' then ("&gt;").data
  else [c]

/-- The character-wise escaper, to be compared with `escape`. -/
def escFlat (s : Chars) : Chars := s.foldr (fun c acc => escChar c ++ acc) []

/-- The matcher of `_Q_RE` and `_A_RE`
(`^\s*Q(\d+)\s*:\s*(.*)\s*$`, and the `A` variant): on success returns
the digit group and the remainder group.  Because `(.*)` is greedy, the
remainder keeps any trailing whitespace. -/
def matchMarker (mark : Char) (line : Chars) : Option (Chars × Chars) :=
  match line.dropWhile pySpace with
  | [] => none
  | c :: rest =>
    if c = mark then
      let digits := rest.takeWhile Char.isDigit
      if digits.isEmpty then none
      else
        match (rest.drop digits.length).dropWhile pySpace with
        | ':' :: afterColon => some (digits, afterColon.dropWhile pySpace)
        | _ => none
    else none

/-- A turn, the Python tuple (kind, label, utterance). -/
abbrev Turn := Chars × Chars × Chars

/-- The accumulator (cur_type, cur_label, cur_buf) of the parser;
cur_label is always assigned together with cur_type in the source, so the
three optional locals are modelled as one optional triple. -/
abbrev TurnAcc := Chars × Chars × List Chars

/-- The `flush()` closure: emit the open accumulator (if any) as a turn,
joining the buffered lines with a newline and stripping the result. -/
def flushTurn : Option TurnAcc → List Turn
  | none => []
  | some (ty, label, buf) => [(ty, label, pyStrip (List.intercalate ['\n'] buf))]

/-- The line loop of `parse_transcript_to_turns`, with turns emitted in
order: a question or answer marker line flushes the open accumulator and
opens a new one seeded with the remainder group; any other line is
appended to the open buffer, or discarded when no accumulator is open. -/
def parseLines : Option TurnAcc → List Chars → List Turn
  | acc, [] => flushTurn acc
  | acc, rawLine :: ls =>
    let line := rstripNl rawLine
    match matchMarker 'Q' line with
    | some (digits, rest) =>
        flushTurn acc ++ parseLines (some (("question").data, 'Q' :: digits, [rest])) ls
    | none =>
      match matchMarker 'A' line with
      | some (digits, rest) =>
          flushTurn acc ++ parseLines (some (("answer").data, 'A' :: digits, [rest])) ls
      | none =>
          parseLines (acc.map (fun a => (a.1, a.2.1, a.2.2 ++ [line]))) ls

/-- `parse_transcript_to_turns`. -/
def parse_transcript_to_turns (text : Chars) : List Turn :=
  parseLines none (splitlines text)

/-- Whether a raw transcript line is a question marker line, after the
`rstrip("\n")` the loop applies before matching. -/
def isQLine (rawLine : Chars) : Bool := (matchMarker 'Q' (rstripNl rawLine)).isSome

/-- Whether a raw transcript line is an answer marker line. -/
def isALine (rawLine : Chars) : Bool := (matchMarker 'A' (rstripNl rawLine)).isSome

/-- Number of question marker lines of a transcript. -/
def countQLines (text : Chars) : Nat := (splitlines text).countP isQLine

/-- Number of answer marker lines of a transcript. -/
def countALines (text : Chars) : Nat := (splitlines text).countP isALine

/-- Indentation policy (the `Indent` dataclass). -/
def INDCORHOH : Chars := ("    ").data

def INDTEXT : Chars := ("        ").data

def INDL2 : Chars := ("            ").data

def INDL3 : Chars := ("                ").data

def INDL4 : Chars := ("                    ").data

def INDL5 : Chars := ("                        ").data

def INDL6 : Chars := ("                            ").data

/-- Decimal rendering of a count interpolated into an f-string. -/
def natStr (n : Nat) : Chars := (toString n).data

/-- A metadata record: the row dict of `df.to_dict(orient="records")`,
as an association list from column name to string value. -/
abbrev Row := List (String × Chars)

/-- `row.get(key, "")`. -/
def rowGet (row : Row) (k : String) : Chars := (row.lookup k).getD []

/-- The local helper `field` of `build_record_xml`:
`escape(str(row.get(key, "")).strip())`. -/
def field (row : Row) (k : String) : Chars := escape (pyStrip (rowGet row k))

/-- One `div` block of `build_record_xml` for a single turn. -/
def div_block (nlp : Chars) (t : Turn) : Chars :=
  let role := if t.1 = ("question").data then ("interviewer").data else ("interviewee").data
  INDL5 ++ ("<div type=\"").data ++ t.1 ++ ("\">").data ++ nlp ++
  INDL6 ++ ("<speaker role=\"").data ++ role ++ ("\">").data ++
    escape t.2.1 ++ ("</speaker>").data ++ nlp ++
  INDL6 ++ ("<u>").data ++ escape t.2.2 ++ ("</u>").data ++ nlp ++
  INDL5 ++ ("</div>").data

/-- `build_record_xml`: the XML fragment for one record plus its
(q_count, a_count). -/
def build_record_xml (row : Row) (transcript_text : Chars) (nlp : Chars) :
    Chars × Nat × Nat :=
  let doc_id := field row ("Documents ID")
  let turns := parse_transcript_to_turns transcript_text
  let div_blocks := turns.map (div_block nlp)
  let xml :=
    INDTEXT ++ ("<text id=\"").data ++ doc_id ++ ("\">").data ++ nlp ++
    INDL2 ++ ("<meta>").data ++ nlp ++
    INDL3 ++ ("<Oral_History_Details>").data ++ nlp ++
    INDL4 ++ ("<Documents_ID>").data ++ doc_id ++ ("</Documents_ID>").data ++ nlp ++
    INDL4 ++ ("<Rec_Date>").data ++ field row ("Rec_Date") ++ ("</Rec_Date>").data ++ nlp ++
    INDL4 ++ ("<Rec_Length>").data ++ field row ("Length") ++ ("</Rec_Length>").data ++ nlp ++
    INDL4 ++ ("<A_Number>").data ++ field row ("A_#") ++ ("</A_Number>").data ++ nlp ++
    INDL4 ++ ("<Q_Number>").data ++ field row ("Q_#") ++ ("</Q_Number>").data ++ nlp ++
    INDL4 ++ ("<permission_type>").data ++ field row ("permission_type") ++
      ("</permission_type>").data ++ nlp ++
    INDL4 ++ ("<Link>").data ++ field row ("Link") ++ ("</Link>").data ++ nlp ++
    INDL3 ++ ("</Oral_History_Details>").data ++ nlp ++
    INDL3 ++ ("<Individual_Meta_Data>").data ++ nlp ++
    INDL4 ++ ("<Name>").data ++ field row ("Name") ++ ("</Name>").data ++ nlp ++
    INDL4 ++ ("<DOB>").data ++ field row ("DOB") ++ ("</DOB>").data ++ nlp ++
    INDL4 ++ ("<Gender>").data ++ field row ("Gender") ++ ("</Gender>").data ++ nlp ++
    INDL4 ++ ("<Born>").data ++ field row ("Born") ++ ("</Born>").data ++ nlp ++
    INDL4 ++ ("<Ghetto>").data ++ field row ("Ghetto") ++ ("</Ghetto>").data ++ nlp ++
    INDL4 ++ ("<Camp>").data ++ field row ("Camp") ++ ("</Camp>").data ++ nlp ++
    INDL4 ++ ("<Imm_Date>").data ++ field row ("Imm_Date") ++ ("</Imm_Date>").data ++ nlp ++
    INDL4 ++ ("<Imm_Destination>").data ++ field row ("Imm_Destination") ++
      ("</Imm_Destination>").data ++ nlp ++
    INDL3 ++ ("</Individual_Meta_Data>").data ++ nlp ++
    INDL2 ++ ("</meta>").data ++ nlp ++
    INDL2 ++ ("<text>").data ++ nlp ++
    INDL3 ++ ("<body>").data ++ nlp ++
    INDL4 ++ ("<div type=\"interview\">").data ++ nlp ++
    INDL5 ++ ("<head>Interview Transcript</head>").data ++ nlp ++
    (List.intercalate nlp div_blocks ++ (if div_blocks.isEmpty then [] else nlp)) ++
    INDL4 ++ ("</div>").data ++ nlp ++
    INDL3 ++ ("</body>").data ++ nlp ++
    INDL2 ++ ("</text>").data ++ nlp ++
    INDTEXT ++ ("</text>").data
  (xml,
   turns.countP (fun t => t.1 == ("question").data),
   turns.countP (fun t => t.1 == ("answer").data))

/-- The abstract paragraph of the header, with the interpolated counts. -/
def abstract_text (total_q total_a : Nat) : Chars :=
  ("CORHOH (Text Corpus of Holocaust Oral Histories) comprises 500 oral histories " ++
   "from Holocaust survivors, with each narrative retrieved via the Let Them Speak " ++
   "Project (Toth 2021). The corpus has been processed and enriched with metadata " ++
   "describing both the testimony givers and the interviews. Non-content technical " ++
   "material has been removed, and each interviewer question and survivor answer " ++
   "has been assigned a unique identifier. The corpus follows TEI guidelines " ++
   "(TEI Consortium 2023). In this version, the dataset contains ").data ++
  natStr total_q ++ (" questions and ").data ++ natStr total_a ++
  (" answers, providing a substantial " ++
   "interdisciplinary resource for research in the humanities and social sciences. " ++
   "CORHOH is sourced from the United States Holocaust Memorial Museum (USHMM) " ++
   "and is publicly available under a CC BY-NC-SA 4.0 license.").data

/-- `fixed_header_block`: the TEI header block with the dynamic counts. -/
def fixed_header_block (total_q total_a : Nat) (nlp : Chars) : Chars :=
  INDCORHOH ++ ("<teiHeader>").data ++ nlp ++
  INDTEXT ++ ("<fileDesc>").data ++ nlp ++
  INDL2 ++ ("<titleStmt>").data ++ nlp ++
  INDL3 ++ ("<title>CORHOH: Text Corpus of Holocaust Oral Histories</title>").data ++ nlp ++
  INDL3 ++ ("<respStmt>").data ++ nlp ++
  INDL4 ++ ("<resp>Mendeley Repository: https://data.mendeley.com/datasets/gz7v268252/2</resp>").data ++ nlp ++
  INDL3 ++ ("</respStmt>").data ++ nlp ++
  INDL2 ++ ("</titleStmt>").data ++ nlp ++
  INDL2 ++ ("<publicationStmt>").data ++ nlp ++
  INDL3 ++ ("<publisher>Data in Brief: https://www.sciencedirect.com/science/article/pii/S2352340925001581</publisher>").data ++ nlp ++
  INDL3 ++ ("<date>2025</date>").data ++ nlp ++
  INDL3 ++ ("<availability>").data ++ nlp ++
  INDL4 ++ ("<licence>All data used in this study comply with ethical guidelines of the United States Holocaust Memorial Museum (https://www.ushmm.org/copyright-and-legal-information/terms-of-use), and the oral histories included in the CORHOH corpus are publicly available under the CC BY-NC-SA 4.0 license.</licence>").data ++ nlp ++
  INDL3 ++ ("</availability>").data ++ nlp ++
  INDL2 ++ ("</publicationStmt>").data ++ nlp ++
  INDL2 ++ ("<sourceDesc>").data ++ nlp ++
  INDL3 ++ ("<bibl>").data ++ nlp ++
  INDL4 ++ ("<title>CORHOH</title>").data ++ nlp ++
  INDL4 ++ ("<author>Daban Q. Jaff</author>").data ++ nlp ++
  INDL4 ++ ("<pubPlace>Universität Erfurt, Philosophische Fakultät</pubPlace>").data ++ nlp ++
  INDL4 ++ ("<date>2025</date>").data ++ nlp ++
  INDL3 ++ ("</bibl>").data ++ nlp ++
  INDL3 ++ ("<p>Data collected from oral history interviews from Let Them Speak: https://lts.fortunoff.library.yale.edu/about</p>").data ++ nlp ++
  INDL2 ++ ("</sourceDesc>").data ++ nlp ++
  INDTEXT ++ ("</fileDesc>").data ++ nlp ++
  INDTEXT ++ ("<profileDesc>").data ++ nlp ++
  INDL2 ++ ("<abstract>").data ++ escape (abstract_text total_q total_a) ++ ("</abstract>").data ++ nlp ++
  INDTEXT ++ ("</profileDesc>").data ++ nlp ++
  INDTEXT ++ ("<revisionDesc>").data ++ nlp ++
  INDL2 ++ ("<change when=\"2025-02-01\">Initial TEI encoding applied.</change>").data ++ nlp ++
  INDL2 ++ ("<change when=\"2026-01-19\">Modified release: corrected a duplicate inclusion; this version contains one oral history per survivor across the 500 records. Counts updated to ").data ++
    natStr total_q ++ (" questions and ").data ++ natStr total_a ++ (" answers.</change>").data ++ nlp ++
  INDTEXT ++ ("</revisionDesc>").data ++ nlp ++
  INDCORHOH ++ ("</teiHeader>").data ++ nlp

/-- The parsed delimited table, as produced by the external
`pandas.read_csv(..., sep=None, dtype=str)`: column names and string
cells, with a missing cell (NaN) modelled as `none`. -/
structure RawFrame where
  columns : List String
  cells : List (List (Option Chars))

/-- The frame after `fillna("")`: every cell a string. -/
structure Frame where
  columns : List String
  cells : List (List Chars)

/-- `read_metadata`: fill missing values with the empty string, then the
mandatory-column check; the raised KeyError is modelled as the error
case, which the caller does not catch. -/
def read_metadata (df : RawFrame) : Except String Frame :=
  let filled : Frame :=
    ⟨df.columns, df.cells.map (fun r => r.map (fun cell => cell.getD []))⟩
  if ("Documents ID" : String) ∈ df.columns then Except.ok filled
  else Except.error "Metadata file must contain a Documents ID column."

/-- `df.to_dict(orient="records")`. -/
def toRecords (f : Frame) : List Row :=
  f.cells.map (fun r => f.columns.zip r)

/-- The document id of a row as computed in the assembler loop:
`str(row.get("Documents ID", "")).strip()`. -/
def docIdOf (row : Row) : Chars := pyStrip (rowGet row ("Documents ID"))

/-- Whether the transcript file for a row is absent from the store. -/
def missingB (ts : Chars → Option Chars) (row : Row) : Bool :=
  (ts (docIdOf row)).isNone

/-- The transcript text used for a row: empty when the file is missing,
otherwise the decoded content passed through the replacement pass. -/
def transcriptFor (ts : Chars → Option Chars) (row : Row) : Chars :=
  match ts (docIdOf row) with
  | none => []
  | some content => clean_content content

/-- The loop state of `generate_corhoh_xml`: the rendered fragments, the
running totals, the missing-transcript count, and the ids for which a
missing-transcript warning was logged. -/
structure RunState where
  records : List Chars
  total_q : Nat
  total_a : Nat
  missing : Nat
  missingIds : List Chars

/-- One iteration of the record loop of `generate_corhoh_xml`; the
missing-transcript warning is modelled by recording the document id. -/
def stepRecord (ts : Chars → Option Chars) (st : RunState) (row : Row) : RunState :=
  let doc_id := docIdOf row
  match ts doc_id with
  | none =>
    let r := build_record_xml row [] ("\n").data
    ⟨st.records ++ [r.1], st.total_q + r.2.1, st.total_a + r.2.2,
     st.missing + 1, st.missingIds ++ [doc_id]⟩
  | some content =>
    let r := build_record_xml row (clean_content content) ("\n").data
    ⟨st.records ++ [r.1], st.total_q + r.2.1, st.total_a + r.2.2,
     st.missing, st.missingIds⟩

/-- The result of a run: the document text that `write_text` writes, plus
the loop state it was assembled from. -/
structure GenResult where
  out : Chars
  records : List Chars
  total_q : Nat
  total_a : Nat
  missing : Nat
  missingIds : List Chars

/-- `generate_corhoh_xml`: load the metadata, run the record loop, and
assemble the document text. -/
def generate_corhoh_xml (df : RawFrame) (ts : Chars → Option Chars) :
    Except String GenResult :=
  match read_metadata df with
  | Except.error e => Except.error e
  | Except.ok f =>
    let st := (toRecords f).foldl (stepRecord ts) ⟨[], 0, 0, 0, []⟩
    let tei :=
      ("<?xml version=\"1.0\" encoding=\"UTF-8\"?>\n").data ++
      ("<TEI xmlns=\"http://www.tei-c.org/ns/1.0\">\n").data ++
      fixed_header_block st.total_q st.total_a ("\n").data ++
      ("\n").data ++ INDCORHOH ++ ("<CORHOH>\n").data ++
      (List.intercalate ("\n").data st.records ++ ("\n").data) ++
      INDCORHOH ++ ("</CORHOH>\n").data ++
      ("</TEI>\n").data
    Except.ok ⟨tei, st.records, st.total_q, st.total_a, st.missing, st.missingIds⟩

/-- The well-formedness invariant of a parsed turn: the kind is the
question or answer literal, and the label is the marker letter followed
by the (nonempty) digit group. -/
def goodTurn (t : Turn) : Prop :=
  (t.1 = ("question").data ∧
    ∃ d, t.2.1 = 'Q' :: d ∧ d ≠ [] ∧ ∀ x ∈ d, x.isDigit = true) ∨
  (t.1 = ("answer").data ∧
    ∃ d, t.2.1 = 'A' :: d ∧ d ≠ [] ∧ ∀ x ∈ d, x.isDigit = true)

/-- The corresponding invariant of the open accumulator. -/
def accOK : Option TurnAcc → Prop
  | none => True
  | some a =>
    (a.1 = ("question").data ∧
      ∃ d, a.2.1 = 'Q' :: d ∧ d ≠ [] ∧ ∀ x ∈ d, x.isDigit = true) ∨
    (a.1 = ("answer").data ∧
      ∃ d, a.2.1 = 'A' :: d ∧ d ≠ [] ∧ ∀ x ∈ d, x.isDigit = true)

/-- The rendered fragment of one row in a run over the store `ts`. -/
def recXmlFor (ts : Chars → Option Chars) (row : Row) : Chars :=
  (build_record_xml row (transcriptFor ts row) (("\n").data)).1

/-- The question count of one row in a run over the store `ts`. -/
def qFor (ts : Chars → Option Chars) (row : Row) : Nat :=
  (build_record_xml row (transcriptFor ts row) (("\n").data)).2.1

/-- The answer count of one row in a run over the store `ts`. -/
def aFor (ts : Chars → Option Chars) (row : Row) : Nat :=
  (build_record_xml row (transcriptFor ts row) (("\n").data)).2.2

/-- A concrete metadata record whose identifier contains a double quote. -/
def demoRow : Row := [(("Documents ID" : String), ("a\"b").data)]

/-! ## Basic facts about the replacement scanner -/

theorem replaceAllGo_skip (p : Char) (ps rep : Chars) :
    ∀ (cs : Chars) (n : Nat),
      replaceAllGo p ps rep n cs = replaceAllGo p ps rep 0 (cs.drop n) := by
  intro cs
  induction cs with
  | nil => intro n; cases n <;> rfl
  | cons c cs ih =>
    intro n
    cases n with
    | zero => rfl
    | succ m => simpa [replaceAllGo] using ih m

theorem replaceAll_nil (p : Char) (ps rep : Chars) :
    replaceAll p ps rep [] = [] := rfl

theorem replaceAll_cons_pos (p : Char) (ps rep : Chars) (c : Char) (cs : Chars)
    (h : (p :: ps) <+: (c :: cs)) :
    replaceAll p ps rep (c :: cs) = rep ++ replaceAll p ps rep (cs.drop ps.length) := by
  have hb : (p :: ps).isPrefixOf (c :: cs) = true := List.isPrefixOf_iff_prefix.mpr h
  simp only [replaceAll, replaceAllGo, hb, if_true]
  rw [replaceAllGo_skip]

theorem replaceAll_cons_neg (p : Char) (ps rep : Chars) (c : Char) (cs : Chars)
    (h : ¬ (p :: ps) <+: (c :: cs)) :
    replaceAll p ps rep (c :: cs) = c :: replaceAll p ps rep cs := by
  have hb : (p :: ps).isPrefixOf (c :: cs) = false := by
    rw [Bool.eq_false_iff]
    intro hc
    exact h (List.isPrefixOf_iff_prefix.mp hc)
  simp only [replaceAll, replaceAllGo, hb, Bool.false_eq_true, if_false]

theorem replaceAll_pattern (p : Char) (ps rep : Chars) (v : Chars) :
    replaceAll p ps rep (p :: (ps ++ v)) = rep ++ replaceAll p ps rep v := by
  have hpre : (p :: ps) <+: (p :: (ps ++ v)) := by
    rw [List.cons_prefix_cons]
    exact ⟨rfl, List.prefix_append _ _⟩
  rw [replaceAll_cons_pos p ps rep p (ps ++ v) hpre]
  rw [List.drop_left]

theorem replaceAll_skip (p : Char) (ps rep : Chars) :
    ∀ (u v : Chars), (∀ c ∈ u, c ≠ p) →
      replaceAll p ps rep (u ++ v) = u ++ replaceAll p ps rep v := by
  intro u
  induction u with
  | nil => intro v _; rfl
  | cons c u ih =>
    intro v h
    have hcp : c ≠ p := h c (List.mem_cons_self c u)
    have hnp : ¬ (p :: ps) <+: (c :: (u ++ v)) := by
      intro hp
      exact hcp (List.cons_prefix_cons.mp hp).1.symm
    rw [List.cons_append, replaceAll_cons_neg p ps rep c (u ++ v) hnp]
    rw [ih v (fun x hx => h x (List.mem_cons_of_mem c hx))]
    rw [List.cons_append]

theorem replaceAll_not_contains (p : Char) (ps rep : Chars) :
    ∀ (s : Chars), containsSub (p :: ps) s = false → replaceAll p ps rep s = s := by
  intro s
  induction s with
  | nil => intro _; rfl
  | cons c cs ih =>
    intro h
    simp only [containsSub, Bool.or_eq_false_iff] at h
    have hnp : ¬ (p :: ps) <+: (c :: cs) := by
      intro hp
      rw [List.isPrefixOf_iff_prefix.mpr hp] at h
      exact Bool.noConfusion h.1
    rw [replaceAll_cons_neg p ps rep c cs hnp, ih h.2]

theorem applyRule_eq_replaceAll (p : Char) (ps rep : Chars) (s : Chars) :
    applyRule s (p :: ps, rep) = replaceAll p ps rep s := by
  simp only [applyRule]
  by_cases h : containsSub (p :: ps) s = true
  · rw [if_pos h]
  · rw [if_neg h]
    rw [replaceAll_not_contains p ps rep s (Bool.eq_false_iff.mpr h)]

/-! ## The escape function evaluated character by character -/

theorem replaceAll_single_hit (p : Char) (rep : Chars) (cs : Chars) :
    replaceAll p [] rep (p :: cs) = rep ++ replaceAll p [] rep cs := by
  have := replaceAll_pattern p [] rep cs
  simpa using this

theorem replaceAll_single_miss (p : Char) (rep : Chars) (c : Char) (cs : Chars)
    (h : c ≠ p) :
    replaceAll p [] rep (c :: cs) = c :: replaceAll p [] rep cs := by
  have hnp : ¬ ([p] : Chars) <+: (c :: cs) := by
    intro hp
    exact h (List.cons_prefix_cons.mp hp).1.symm
  exact replaceAll_cons_neg p [] rep c cs hnp

theorem escape_nil : escape [] = [] := rfl

theorem escape_cons (c : Char) (cs : Chars) :
    escape (c :: cs) = escChar c ++ escape cs := by
  by_cases h1 : c = '&'
  · subst h1
    show replaceAll '>' [] (("&gt;").data)
        (replaceAll '<' [] (("&lt;").data)
          (replaceAll '&' [] (("&amp;").data) ('&' :: cs))) = _
    rw [replaceAll_single_hit '&' (("&amp;").data) cs]
    rw [replaceAll_skip '<' [] (("&lt;").data) (("&amp;").data) _ (by decide)]
    rw [replaceAll_skip '>' [] (("&gt;").data) (("&amp;").data) _ (by decide)]
    rfl
  · by_cases h2 : c = '<'
    · subst h2
      show replaceAll '>' [] (("&gt;").data)
          (replaceAll '<' [] (("&lt;").data)
            (replaceAll '&' [] (("&amp;").data) ('<' :: cs))) = _
      rw [replaceAll_single_miss '&' (("&amp;").data) '<' cs (by decide)]
      rw [replaceAll_single_hit '<' (("&lt;").data) _]
      rw [replaceAll_skip '>' [] (("&gt;").data) (("&lt;").data) _ (by decide)]
      rfl
    · by_cases h3 : c = '>'
      · subst h3
        show replaceAll '>' [] (("&gt;").data)
            (replaceAll '<' [] (("&lt;").data)
              (replaceAll '&' [] (("&amp;").data) ('>' :: cs))) = _
        rw [replaceAll_single_miss '&' (("&amp;").data) '>' cs (by decide)]
        rw [replaceAll_single_miss '<' (("&lt;").data) '>' _ (by decide)]
        rw [replaceAll_single_hit '>' (("&gt;").data) _]
        rfl
      · show replaceAll '>' [] (("&gt;").data)
            (replaceAll '<' [] (("&lt;").data)
              (replaceAll '&' [] (("&amp;").data) (c :: cs))) = _
        rw [replaceAll_single_miss '&' (("&amp;").data) c cs h1]
        rw [replaceAll_single_miss '<' (("&lt;").data) c _ h2]
        rw [replaceAll_single_miss '>' (("&gt;").data) c _ h3]
        simp only [escChar, if_neg h1, if_neg h2, if_neg h3, List.singleton_append]
        rfl

theorem escape_eq_escFlat (s : Chars) : escape s = escFlat s := by
  induction s with
  | nil => rfl
  | cons c cs ih =>
    rw [escape_cons, ih]
    rfl

theorem mem_escChar_not_angle (c x : Char) (hx : x ∈ escChar c) :
    x ≠ '<' ∧ x ≠ '>' := by
  by_cases h1 : c = '&'
  · subst h1
    have hx2 : x ∈ (['&', 'a', 'm', 'p', ';'] : Chars) := hx
    fin_cases hx2 <;> exact ⟨by decide, by decide⟩
  · by_cases h2 : c = '<'
    · subst h2
      have hx2 : x ∈ (['&', 'l', 't', ';'] : Chars) := hx
      fin_cases hx2 <;> exact ⟨by decide, by decide⟩
    · by_cases h3 : c = '>'
      · subst h3
        have hx2 : x ∈ (['&', 'g', 't', ';'] : Chars) := hx
        fin_cases hx2 <;> exact ⟨by decide, by decide⟩
      · simp only [escChar, if_neg h1, if_neg h2, if_neg h3, List.mem_singleton] at hx
        subst hx
        exact ⟨h2, h3⟩


theorem mem_escape_not_angle (s : Chars) (c : Char) (hc : c ∈ escape s) :
    c ≠ '<' ∧ c ≠ '>' := by
  induction s with
  | nil => simp [escape_nil] at hc
  | cons x xs ih =>
    rw [escape_cons] at hc
    rcases List.mem_append.mp hc with h | h
    · exact mem_escChar_not_angle x c h
    · exact ih h

/-! ## The turn parser: counting and well-formedness -/

theorem parseLines_nil (acc : Option TurnAcc) : parseLines acc [] = flushTurn acc := rfl

theorem flushTurn_none_length : (flushTurn none).length = 0 := rfl

theorem flushTurn_some_length (a : TurnAcc) : (flushTurn (some a)).length = 1 := rfl

theorem matchMarker_head (mark : Char) (line : Chars)
    (h : (matchMarker mark line).isSome = true) :
    ∃ rest, line.dropWhile pySpace = mark :: rest := by
  cases hd : line.dropWhile pySpace with
  | nil =>
    simp only [matchMarker, hd, Option.isSome_none] at h
    exact Bool.noConfusion h
  | cons c rest =>
    by_cases hc : c = mark
    · subst hc
      exact ⟨rest, rfl⟩
    · simp only [matchMarker, hd, if_neg hc, Option.isSome_none] at h
      exact Bool.noConfusion h

theorem marker_not_both (l : Chars) : ¬ (isQLine l = true ∧ isALine l = true) := by
  rintro ⟨hq, ha⟩
  obtain ⟨r1, e1⟩ := matchMarker_head 'Q' (rstripNl l) hq
  obtain ⟨r2, e2⟩ := matchMarker_head 'A' (rstripNl l) ha
  rw [e1] at e2
  injection e2 with h1 _
  exact absurd h1 (by decide)

theorem countP_or_disjoint {α : Type} (p q : α → Bool) :
    ∀ (l : List α), (∀ x ∈ l, ¬ (p x = true ∧ q x = true)) →
      l.countP (fun x => p x || q x) = l.countP p + l.countP q := by
  intro l
  induction l with
  | nil => intro _; simp
  | cons x l ih =>
    intro h
    have hx := h x (List.mem_cons_self x l)
    rw [List.countP_cons, List.countP_cons, List.countP_cons,
      ih (fun y hy => h y (List.mem_cons_of_mem x hy))]
    cases hpv : p x with
    | true =>
      have hq : q x = false := by
        cases hqv : q x with
        | false => rfl
        | true => exact absurd ⟨hpv, hqv⟩ hx
      rw [hq]
      simp only [Bool.true_or]
      simp
      omega
    | false =>
      cases hqv : q x with
      | false =>
        simp only [Bool.false_or, hqv]
        simp
      | true =>
        simp only [Bool.false_or, hqv]
        simp
        omega

theorem parseLines_length (ls : List Chars) :
    ∀ (acc : Option TurnAcc),
      (parseLines acc ls).length =
        (flushTurn acc).length + ls.countP (fun l => isQLine l || isALine l) := by
  induction ls with
  | nil =>
    intro acc
    simp [parseLines_nil]
  | cons rawLine ls ih =>
    intro acc
    cases hq : matchMarker 'Q' (rstripNl rawLine) with
    | some pr =>
      obtain ⟨d, r⟩ := pr
      have hm : (isQLine rawLine || isALine rawLine) = true := by
        simp [isQLine, hq]
      have e1 : parseLines acc (rawLine :: ls) =
          flushTurn acc ++
            parseLines (some (("question").data, 'Q' :: d, [r])) ls := by
        simp only [parseLines, hq]
      have hc2 : (rawLine :: ls).countP (fun l => isQLine l || isALine l) =
          ls.countP (fun l => isQLine l || isALine l) + 1 := by
        rw [List.countP_cons, hm]
        simp
      rw [e1, List.length_append, ih, hc2, flushTurn_some_length]
      omega
    | none =>
      cases ha : matchMarker 'A' (rstripNl rawLine) with
      | some pr =>
        obtain ⟨d, r⟩ := pr
        have hm : (isQLine rawLine || isALine rawLine) = true := by
          simp [isALine, ha]
        have e1 : parseLines acc (rawLine :: ls) =
            flushTurn acc ++
              parseLines (some (("answer").data, 'A' :: d, [r])) ls := by
          simp only [parseLines, hq, ha]
        have hc2 : (rawLine :: ls).countP (fun l => isQLine l || isALine l) =
            ls.countP (fun l => isQLine l || isALine l) + 1 := by
          rw [List.countP_cons, hm]
          simp
        rw [e1, List.length_append, ih, hc2, flushTurn_some_length]
        omega
      | none =>
        have hm : (isQLine rawLine || isALine rawLine) = false := by
          simp [isQLine, isALine, hq, ha]
        have e1 : parseLines acc (rawLine :: ls) =
            parseLines
              (acc.map (fun a => (a.1, a.2.1, a.2.2 ++ [rstripNl rawLine]))) ls := by
          simp only [parseLines, hq, ha]
        have hc2 : (rawLine :: ls).countP (fun l => isQLine l || isALine l) =
            ls.countP (fun l => isQLine l || isALine l) := by
          rw [List.countP_cons, hm]
          simp
        rw [e1, ih, hc2]
        have e2 : (flushTurn
            (acc.map (fun a => (a.1, a.2.1, a.2.2 ++ [rstripNl rawLine])))).length =
            (flushTurn acc).length := by
          cases acc <;> rfl
        rw [e2]

theorem parse_length_eq (text : Chars) :
    (parse_transcript_to_turns text).length = countQLines text + countALines text := by
  rw [parse_transcript_to_turns, parseLines_length, countQLines, countALines]
  rw [countP_or_disjoint isQLine isALine (splitlines text)
    (fun x _ => marker_not_both x)]
  rw [flushTurn_none_length]
  omega

theorem matchMarker_digits (mark : Char) (line d r : Chars)
    (h : matchMarker mark line = some (d, r)) :
    d ≠ [] ∧ ∀ x ∈ d, x.isDigit = true := by
  simp only [matchMarker] at h
  split at h
  · exact absurd h (by simp)
  · rename_i c rest hd
    split at h
    · split at h
      · exact absurd h (by simp)
      · rename_i hne
        split at h
        · rename_i afterColon hcol
          have hdig : d = rest.takeWhile Char.isDigit := by
            injection h with h1
            injection h1 with h2 _
            exact h2.symm
          constructor
          · rw [hdig]
            intro habs
            rw [habs] at hne
            exact hne rfl
          · intro x hx
            rw [hdig] at hx
            exact List.mem_takeWhile_imp hx
        · exact absurd h (by simp)
    · exact absurd h (by simp)

theorem parseLines_good (ls : List Chars) :
    ∀ (acc : Option TurnAcc), accOK acc → ∀ t ∈ parseLines acc ls, goodTurn t := by
  induction ls with
  | nil =>
    intro acc hacc t ht
    rw [parseLines_nil] at ht
    cases acc with
    | none => simp [flushTurn] at ht
    | some a =>
      obtain ⟨ty, lab, buf⟩ := a
      simp only [flushTurn, List.mem_singleton] at ht
      subst ht
      exact hacc
  | cons rawLine ls ih =>
    intro acc hacc t ht
    cases hq : matchMarker 'Q' (rstripNl rawLine) with
    | some pr =>
      obtain ⟨d, r⟩ := pr
      have hd := matchMarker_digits 'Q' (rstripNl rawLine) d r hq
      have e1 : parseLines acc (rawLine :: ls) =
          flushTurn acc ++
            parseLines (some (("question").data, 'Q' :: d, [r])) ls := by
        simp only [parseLines, hq]
      rw [e1] at ht
      rcases List.mem_append.mp ht with h1 | h2
      · cases acc with
        | none => simp [flushTurn] at h1
        | some a =>
          obtain ⟨ty, lab, buf⟩ := a
          simp only [flushTurn, List.mem_singleton] at h1
          subst h1
          exact hacc
      · exact ih (some (("question").data, 'Q' :: d, [r]))
          (Or.inl ⟨rfl, d, rfl, hd.1, hd.2⟩) t h2
    | none =>
      cases ha : matchMarker 'A' (rstripNl rawLine) with
      | some pr =>
        obtain ⟨d, r⟩ := pr
        have hd := matchMarker_digits 'A' (rstripNl rawLine) d r ha
        have e1 : parseLines acc (rawLine :: ls) =
            flushTurn acc ++
              parseLines (some (("answer").data, 'A' :: d, [r])) ls := by
          simp only [parseLines, hq, ha]
        rw [e1] at ht
        rcases List.mem_append.mp ht with h1 | h2
        · cases acc with
          | none => simp [flushTurn] at h1
          | some a =>
            obtain ⟨ty, lab, buf⟩ := a
            simp only [flushTurn, List.mem_singleton] at h1
            subst h1
            exact hacc
        · exact ih (some (("answer").data, 'A' :: d, [r]))
            (Or.inr ⟨rfl, d, rfl, hd.1, hd.2⟩) t h2
      | none =>
        have e1 : parseLines acc (rawLine :: ls) =
            parseLines
              (acc.map (fun a => (a.1, a.2.1, a.2.2 ++ [rstripNl rawLine]))) ls := by
          simp only [parseLines, hq, ha]
        rw [e1] at ht
        refine ih _ ?_ t ht
        cases acc with
        | none => trivial
        | some a => exact hacc

theorem parse_good (text : Chars) :
    ∀ t ∈ parse_transcript_to_turns text, goodTurn t :=
  parseLines_good (splitlines text) none trivial

theorem countP_question_answer (l : List Turn)
    (h : ∀ t ∈ l, goodTurn t) :
    l.countP (fun t => t.1 == ("question").data) +
      l.countP (fun t => t.1 == ("answer").data) = l.length := by
  induction l with
  | nil => simp
  | cons t l ih =>
    have ht := h t (List.mem_cons_self t l)
    have ihe := ih (fun y hy => h y (List.mem_cons_of_mem t hy))
    rw [List.countP_cons, List.countP_cons, List.length_cons]
    rcases ht with ⟨hq, _⟩ | ⟨ha, _⟩
    · rw [hq]
      have e1 : ((("question").data : Chars) == ("question").data) = true := by decide
      have e2 : ((("question").data : Chars) == ("answer").data) = false := by decide
      rw [e1, e2]
      simp only [eq_self_iff_true, if_true, Bool.false_eq_true, if_false]
      simp only [show (("question").data : Chars) = ['q','u','e','s','t','i','o','n'] from rfl,
        show (("answer").data : Chars) = ['a','n','s','w','e','r'] from rfl] at ihe ⊢
      omega
    · rw [ha]
      have e1 : ((("answer").data : Chars) == ("question").data) = false := by decide
      have e2 : ((("answer").data : Chars) == ("answer").data) = true := by decide
      rw [e1, e2]
      simp only [eq_self_iff_true, if_true, Bool.false_eq_true, if_false]
      simp only [show (("question").data : Chars) = ['q','u','e','s','t','i','o','n'] from rfl,
        show (("answer").data : Chars) = ['a','n','s','w','e','r'] from rfl] at ihe ⊢
      omega

/-! ## The assembler loop in closed form -/

theorem transcriptFor_none (ts : Chars → Option Chars) (row : Row)
    (h : ts (docIdOf row) = none) : transcriptFor ts row = [] := by
  rw [transcriptFor, h]

theorem stepRecord_eq (ts : Chars → Option Chars) (st : RunState) (row : Row) :
    stepRecord ts st row =
      ⟨st.records ++ [recXmlFor ts row],
       st.total_q + qFor ts row,
       st.total_a + aFor ts row,
       st.missing + (if missingB ts row then 1 else 0),
       st.missingIds ++ (if missingB ts row then [docIdOf row] else [])⟩ := by
  cases h : ts (docIdOf row) with
  | none =>
    have hm : missingB ts row = true := by simp [missingB, h]
    simp only [stepRecord, h, hm, if_true, recXmlFor, qFor, aFor, transcriptFor]
  | some content =>
    have hm : missingB ts row = false := by simp [missingB, h]
    simp only [stepRecord, h, hm, Bool.false_eq_true, if_false, List.append_nil,
      Nat.add_zero, recXmlFor, qFor, aFor, transcriptFor]

theorem foldl_stepRecord (ts : Chars → Option Chars) :
    ∀ (rows : List Row) (st : RunState),
      rows.foldl (stepRecord ts) st =
        ⟨st.records ++ rows.map (recXmlFor ts),
         st.total_q + (rows.map (qFor ts)).sum,
         st.total_a + (rows.map (aFor ts)).sum,
         st.missing + rows.countP (missingB ts),
         st.missingIds ++ (rows.filter (missingB ts)).map docIdOf⟩ := by
  intro rows
  induction rows with
  | nil =>
    intro st
    simp only [List.foldl_nil, List.map_nil, List.append_nil, List.sum_nil,
      Nat.add_zero, List.countP_nil, List.filter_nil]
  | cons row rows ih =>
    intro st
    rw [List.foldl_cons, stepRecord_eq, ih]
    simp only [List.map_cons, List.sum_cons, List.countP_cons, List.filter_cons,
      RunState.mk.injEq]
    refine ⟨?_, ?_, ?_, ?_, ?_⟩
    · rw [List.append_assoc, List.singleton_append]
    · omega
    · omega
    · by_cases hm : missingB ts row = true
      · rw [hm]
        simp only [if_true]
        omega
      · have hm2 : missingB ts row = false := Bool.eq_false_iff.mpr hm
        rw [hm2]
        simp only [Bool.false_eq_true, if_false]
        omega
    · by_cases hm : missingB ts row = true
      · rw [hm]
        simp only [if_true, List.map_cons]
        rw [List.append_assoc, List.singleton_append]
      · have hm2 : missingB ts row = false := Bool.eq_false_iff.mpr hm
        rw [hm2]
        simp only [Bool.false_eq_true, if_false, List.append_nil]

theorem generate_ok (df : RawFrame) (ts : Chars → Option Chars) (f : Frame)
    (h : read_metadata df = Except.ok f) :
    generate_corhoh_xml df ts =
      Except.ok
        { out :=
            ("<?xml version=\"1.0\" encoding=\"UTF-8\"?>\n").data ++
            ("<TEI xmlns=\"http://www.tei-c.org/ns/1.0\">\n").data ++
            fixed_header_block (((toRecords f).map (qFor ts)).sum)
              (((toRecords f).map (aFor ts)).sum) (("\n").data) ++
            ("\n").data ++ INDCORHOH ++ ("<CORHOH>\n").data ++
            (List.intercalate (("\n").data) ((toRecords f).map (recXmlFor ts)) ++ ("\n").data) ++
            INDCORHOH ++ ("</CORHOH>\n").data ++
            ("</TEI>\n").data,
          records := (toRecords f).map (recXmlFor ts),
          total_q := ((toRecords f).map (qFor ts)).sum,
          total_a := ((toRecords f).map (aFor ts)).sum,
          missing := (toRecords f).countP (missingB ts),
          missingIds := ((toRecords f).filter (missingB ts)).map docIdOf } := by
  simp only [generate_corhoh_xml, h, foldl_stepRecord]
  simp only [List.nil_append, Nat.zero_add]

/-! ## Commutation of the replacement rules: single-character rules -/

theorem subst_map (p r : Char) (s : Chars) :
    replaceAll p [] [r] s = s.map (fun c => if c = p then r else c) := by
  induction s with
  | nil => rfl
  | cons c cs ih =>
    by_cases h : c = p
    · subst h
      rw [replaceAll_single_hit, ih, List.map_cons, if_pos rfl,
        List.singleton_append]
    · rw [replaceAll_single_miss p [r] c cs h, ih, List.map_cons, if_neg h]

theorem comm_single_single (k1 r1 k2 r2 : Char)
    (h12 : k1 ≠ k2) (hr1 : r1 ≠ k2) (hr2 : r2 ≠ k1) (s : Chars) :
    replaceAll k2 [] [r2] (replaceAll k1 [] [r1] s) =
      replaceAll k1 [] [r1] (replaceAll k2 [] [r2] s) := by
  rw [subst_map, subst_map, subst_map, subst_map, List.map_map, List.map_map]
  apply List.map_congr_left
  intro c _
  simp only [Function.comp_apply]
  by_cases h1 : c = k1
  · subst h1
    simp [h12, hr1]
  · by_cases h2 : c = k2
    · subst h2
      simp [h1, hr2, Ne.symm h12]
    · simp [h1, h2]

theorem map_fix_of_forall (f : Char → Char) (l : Chars)
    (h : ∀ c ∈ l, f c = c) : l.map f = l :=
  (List.map_congr_left h).trans (List.map_id l)

theorem prefix_map_reflect (f : Char → Char) :
    ∀ (pat s : Chars), (∀ c, f c ∈ pat → f c = c) →
      pat <+: s.map f → pat <+: s := by
  intro pat
  induction pat with
  | nil => intro s _ _; exact List.nil_prefix
  | cons a pat ih =>
    intro s hrefl hp
    cases s with
    | nil => exact absurd (List.IsPrefix.length_le hp) (by simp)
    | cons c cs =>
      rw [List.map_cons] at hp
      obtain ⟨h1, h2⟩ := List.cons_prefix_cons.mp hp
      have hfc : f c = c := hrefl c (by rw [h1.symm] at *; exact List.mem_cons_self _ _)
      have hca : c = a := by rw [← hfc, ← h1]
      subst hca
      exact List.cons_prefix_cons.mpr
        ⟨rfl, ih cs (fun x hx => hrefl x (List.mem_cons_of_mem _ hx)) h2⟩

theorem map_replaceAll_comm (f : Char → Char) (p : Char) (ps rep : Chars)
    (hfix : ∀ c ∈ (p :: ps), f c = c)
    (hrefl : ∀ c, f c ∈ (p :: ps) → f c = c)
    (hrep : rep.map f = rep) :
    ∀ (n : Nat) (s : Chars), s.length ≤ n →
      (replaceAll p ps rep s).map f = replaceAll p ps rep (s.map f) := by
  intro n
  induction n with
  | zero =>
    intro s hs
    have h0 : s = [] := List.length_eq_zero.mp (Nat.le_zero.mp hs)
    subst h0
    rfl
  | succ n ih =>
    intro s hs
    cases s with
    | nil => rfl
    | cons c cs =>
      by_cases hpre : (p :: ps) <+: (c :: cs)
      · obtain ⟨v, hv⟩ := hpre
        have hlen : v.length ≤ n := by
          have hl := congrArg List.length hv
          simp only [List.length_append, List.length_cons] at hl
          simp only [List.length_cons] at hs
          omega
        rw [← hv]
        have e1 : replaceAll p ps rep ((p :: ps) ++ v) =
            rep ++ replaceAll p ps rep v := by
          rw [List.cons_append, replaceAll_pattern]
        have e2 : ((p :: ps) ++ v).map f = (p :: ps) ++ v.map f := by
          rw [List.map_append, map_fix_of_forall f (p :: ps) hfix]
        rw [e1, List.map_append, hrep, e2, List.cons_append, replaceAll_pattern,
          ih v hlen]
      · have hpre2 : ¬ (p :: ps) <+: (f c :: cs.map f) := by
          intro h2
          have h3 : (p :: ps) <+: ((c :: cs).map f) := by
            rw [List.map_cons]
            exact h2
          exact hpre (prefix_map_reflect f (p :: ps) (c :: cs) hrefl h3)
        rw [replaceAll_cons_neg p ps rep c cs hpre, List.map_cons, List.map_cons,
          replaceAll_cons_neg p ps rep (f c) (cs.map f) hpre2,
          ih cs (by simp only [List.length_cons] at hs; omega)]

theorem comm_single_multi (k r : Char) (p : Char) (ps rep : Chars)
    (h1 : k ∉ (p :: ps)) (h2 : r ∉ (p :: ps))
    (h3 : rep.map (fun c => if c = k then r else c) = rep) (s : Chars) :
    replaceAll p ps rep (replaceAll k [] [r] s) =
      replaceAll k [] [r] (replaceAll p ps rep s) := by
  have hfix : ∀ c ∈ (p :: ps), (fun c => if c = k then r else c) c = c := by
    intro c hc
    simp only
    rw [if_neg]
    intro he
    rw [he] at hc
    exact h1 hc
  have hrefl : ∀ c, (fun c => if c = k then r else c) c ∈ (p :: ps) →
      (fun c => if c = k then r else c) c = c := by
    intro c hc
    simp only at hc ⊢
    by_cases he : c = k
    · rw [if_pos he] at hc
      exact absurd hc h2
    · rw [if_neg he]
  rw [subst_map, subst_map]
  exact (map_replaceAll_comm (fun c => if c = k then r else c) p ps rep
    hfix hrefl h3 s.length s (Nat.le_refl _)).symm

/-! ## Commutation of the replacement rules: the garbled-apostrophe family -/

theorem not_prefix_of_head_ne (x : Char) (xs : Chars) (c : Char) (cs : Chars)
    (h : c ≠ x) : ¬ (x :: xs) <+: (c :: cs) := by
  intro hp
  exact h (List.cons_prefix_cons.mp hp).1.symm

theorem replaceAll_cons_head (p : Char) (ps : Chars) (r0 : Char) (rt : Chars)
    (d : Char) (X : Chars) :
    ∃ Y, replaceAll p ps (r0 :: rt) (d :: X) = r0 :: Y ∨
         replaceAll p ps (r0 :: rt) (d :: X) = d :: Y := by
  by_cases hpre : (p :: ps) <+: (d :: X)
  · refine ⟨rt ++ replaceAll p ps (r0 :: rt) (X.drop ps.length), Or.inl ?_⟩
    rw [replaceAll_cons_pos p ps (r0 :: rt) d X hpre]
    rfl
  · exact ⟨replaceAll p ps (r0 :: rt) X, Or.inr (replaceAll_cons_neg _ _ _ _ _ hpre)⟩

theorem not_prefix_family (z Z : Chars)
    (h : ∀ y Y, Z = y :: Y → y ≠ 'ï') :
    ¬ ('√' :: 'ï' :: z) <+: ('√' :: Z) := by
  intro hp
  obtain ⟨-, hp2⟩ := List.cons_prefix_cons.mp hp
  cases Z with
  | nil => exact absurd hp2.length_le (by simp)
  | cons y Y => exact (h y Y rfl) (List.cons_prefix_cons.mp hp2).1.symm

theorem prefix_replaceAll_reflect (p : Char) (ps : Chars) (r0 : Char) (rt : Chars) :
    ∀ (s w : Chars), (∀ c ∈ w, c ≠ r0) →
      w <+: replaceAll p ps (r0 :: rt) s → w <+: s := by
  intro s
  induction s with
  | nil =>
    intro w hw hp
    rwa [replaceAll_nil] at hp
  | cons c cs ih =>
    intro w hw hp
    by_cases hpre : (p :: ps) <+: (c :: cs)
    · rw [replaceAll_cons_pos p ps (r0 :: rt) c cs hpre] at hp
      cases w with
      | nil => exact List.nil_prefix
      | cons y w2 =>
        have hy : y = r0 := (List.cons_prefix_cons.mp hp).1
        exact absurd hy (hw y (List.mem_cons_self _ _))
    · rw [replaceAll_cons_neg p ps (r0 :: rt) c cs hpre] at hp
      cases w with
      | nil => exact List.nil_prefix
      | cons y w2 =>
        obtain ⟨h1, h2⟩ := List.cons_prefix_cons.mp hp
        subst h1
        exact List.cons_prefix_cons.mpr
          ⟨rfl, ih w2 (fun x hx => hw x (List.mem_cons_of_mem _ hx)) h2⟩

theorem comm_family_ne (a : Char) (w1 : Chars) (b : Char) (w2 : Chars)
    (hab : a ≠ b)
    (hw1 : ∀ c ∈ (a :: w1), c ≠ '√' ∧ c ≠ '\'')
    (hw2 : ∀ c ∈ (b :: w2), c ≠ '√' ∧ c ≠ '\'') :
    ∀ (n : Nat) (s : Chars), s.length ≤ n →
      replaceAll '√' ('ï' :: (b :: w2)) ('\'' :: (b :: w2))
        (replaceAll '√' ('ï' :: (a :: w1)) ('\'' :: (a :: w1)) s) =
      replaceAll '√' ('ï' :: (a :: w1)) ('\'' :: (a :: w1))
        (replaceAll '√' ('ï' :: (b :: w2)) ('\'' :: (b :: w2)) s) := by
  intro n
  induction n with
  | zero =>
    intro s hs
    have h0 : s = [] := List.length_eq_zero.mp (Nat.le_zero.mp hs)
    subst h0
    rfl
  | succ n ih =>
    intro s hs
    cases s with
    | nil => rfl
    | cons c cs =>
      by_cases hc : c = '√'
      · subst hc
        cases cs with
        | nil =>
          have e0 : ∀ (z rep : Chars), replaceAll '√' ('ï' :: z) rep ['√'] = ['√'] := by
            intro z rep
            rw [replaceAll_cons_neg]
            · rfl
            · intro hp
              have hl := hp.length_le
              simp at hl
          simp only [e0]
        | cons d X =>
          by_cases hd : d = 'ï'
          · subst hd
            by_cases hm1 : (a :: w1) <+: X
            · obtain ⟨v, hv⟩ := hm1
              have hlen : v.length ≤ n := by
                have hl := congrArg List.length hv
                simp only [List.length_append, List.length_cons] at hl
                simp only [List.length_cons] at hs
                omega
              rw [← hv]
              have e1 : replaceAll '√' ('ï' :: (a :: w1)) ('\'' :: (a :: w1))
                  ('√' :: 'ï' :: ((a :: w1) ++ v)) =
                  ('\'' :: (a :: w1)) ++
                    replaceAll '√' ('ï' :: (a :: w1)) ('\'' :: (a :: w1)) v :=
                replaceAll_pattern '√' ('ï' :: (a :: w1)) ('\'' :: (a :: w1)) v
              have e2 : ∀ Z, replaceAll '√' ('ï' :: (b :: w2)) ('\'' :: (b :: w2))
                  (('\'' :: (a :: w1)) ++ Z) =
                  ('\'' :: (a :: w1)) ++
                    replaceAll '√' ('ï' :: (b :: w2)) ('\'' :: (b :: w2)) Z := by
                intro Z
                apply replaceAll_skip
                intro x hx
                rcases List.mem_cons.mp hx with h | h
                · subst h
                  decide
                · exact (hw1 x h).1
              have hn2 : ¬ ('√' :: 'ï' :: (b :: w2)) <+:
                  ('√' :: 'ï' :: ((a :: w1) ++ v)) := by
                intro hp
                obtain ⟨-, hp2⟩ := List.cons_prefix_cons.mp hp
                obtain ⟨-, hp3⟩ := List.cons_prefix_cons.mp hp2
                exact hab ((List.cons_prefix_cons.mp hp3).1).symm
              have e3 : replaceAll '√' ('ï' :: (b :: w2)) ('\'' :: (b :: w2))
                  ('√' :: 'ï' :: ((a :: w1) ++ v)) =
                  '√' :: 'ï' :: ((a :: w1) ++
                    replaceAll '√' ('ï' :: (b :: w2)) ('\'' :: (b :: w2)) v) := by
                rw [replaceAll_cons_neg _ _ _ _ _ hn2]
                rw [replaceAll_cons_neg _ _ _ _ _
                  (not_prefix_of_head_ne _ _ _ _ (by decide))]
                rw [replaceAll_skip _ _ _ _ _ (fun x hx => (hw1 x hx).1)]
              have e4 : replaceAll '√' ('ï' :: (a :: w1)) ('\'' :: (a :: w1))
                  ('√' :: 'ï' :: ((a :: w1) ++
                    replaceAll '√' ('ï' :: (b :: w2)) ('\'' :: (b :: w2)) v)) =
                  ('\'' :: (a :: w1)) ++
                    replaceAll '√' ('ï' :: (a :: w1)) ('\'' :: (a :: w1))
                      (replaceAll '√' ('ï' :: (b :: w2)) ('\'' :: (b :: w2)) v) :=
                replaceAll_pattern '√' ('ï' :: (a :: w1)) ('\'' :: (a :: w1)) _
              rw [e1, e2, e3, e4, ih v hlen]
            · by_cases hm2 : (b :: w2) <+: X
              · obtain ⟨v, hv⟩ := hm2
                have hlen : v.length ≤ n := by
                  have hl := congrArg List.length hv
                  simp only [List.length_append, List.length_cons] at hl
                  simp only [List.length_cons] at hs
                  omega
                rw [← hv]
                have e1 : replaceAll '√' ('ï' :: (b :: w2)) ('\'' :: (b :: w2))
                    ('√' :: 'ï' :: ((b :: w2) ++ v)) =
                    ('\'' :: (b :: w2)) ++
                      replaceAll '√' ('ï' :: (b :: w2)) ('\'' :: (b :: w2)) v :=
                  replaceAll_pattern '√' ('ï' :: (b :: w2)) ('\'' :: (b :: w2)) v
                have e2 : ∀ Z, replaceAll '√' ('ï' :: (a :: w1)) ('\'' :: (a :: w1))
                    (('\'' :: (b :: w2)) ++ Z) =
                    ('\'' :: (b :: w2)) ++
                      replaceAll '√' ('ï' :: (a :: w1)) ('\'' :: (a :: w1)) Z := by
                  intro Z
                  apply replaceAll_skip
                  intro x hx
                  rcases List.mem_cons.mp hx with h | h
                  · subst h
                    decide
                  · exact (hw2 x h).1
                have hn1 : ¬ ('√' :: 'ï' :: (a :: w1)) <+:
                    ('√' :: 'ï' :: ((b :: w2) ++ v)) := by
                  intro hp
                  obtain ⟨-, hp2⟩ := List.cons_prefix_cons.mp hp
                  obtain ⟨-, hp3⟩ := List.cons_prefix_cons.mp hp2
                  exact hab ((List.cons_prefix_cons.mp hp3).1)
                have e3 : replaceAll '√' ('ï' :: (a :: w1)) ('\'' :: (a :: w1))
                    ('√' :: 'ï' :: ((b :: w2) ++ v)) =
                    '√' :: 'ï' :: ((b :: w2) ++
                      replaceAll '√' ('ï' :: (a :: w1)) ('\'' :: (a :: w1)) v) := by
                  rw [replaceAll_cons_neg _ _ _ _ _ hn1]
                  rw [replaceAll_cons_neg _ _ _ _ _
                    (not_prefix_of_head_ne _ _ _ _ (by decide))]
                  rw [replaceAll_skip _ _ _ _ _ (fun x hx => (hw2 x hx).1)]
                have e4 : replaceAll '√' ('ï' :: (b :: w2)) ('\'' :: (b :: w2))
                    ('√' :: 'ï' :: ((b :: w2) ++
                      replaceAll '√' ('ï' :: (a :: w1)) ('\'' :: (a :: w1)) v)) =
                    ('\'' :: (b :: w2)) ++
                      replaceAll '√' ('ï' :: (b :: w2)) ('\'' :: (b :: w2))
                        (replaceAll '√' ('ï' :: (a :: w1)) ('\'' :: (a :: w1)) v) :=
                  replaceAll_pattern '√' ('ï' :: (b :: w2)) ('\'' :: (b :: w2)) _
                rw [e1, e2, e3, e4, ih v hlen]
              · have hlen : X.length ≤ n := by
                  simp only [List.length_cons] at hs
                  omega
                have f1 : replaceAll '√' ('ï' :: (a :: w1)) ('\'' :: (a :: w1))
                    ('√' :: 'ï' :: X) =
                    '√' :: 'ï' :: replaceAll '√' ('ï' :: (a :: w1)) ('\'' :: (a :: w1)) X := by
                  rw [replaceAll_cons_neg _ _ _ _ _ (by
                    intro hp
                    obtain ⟨-, hp2⟩ := List.cons_prefix_cons.mp hp
                    obtain ⟨-, hp3⟩ := List.cons_prefix_cons.mp hp2
                    exact hm1 hp3)]
                  rw [replaceAll_cons_neg _ _ _ _ _
                    (not_prefix_of_head_ne _ _ _ _ (by decide))]
                have f2 : replaceAll '√' ('ï' :: (b :: w2)) ('\'' :: (b :: w2))
                    ('√' :: 'ï' :: X) =
                    '√' :: 'ï' :: replaceAll '√' ('ï' :: (b :: w2)) ('\'' :: (b :: w2)) X := by
                  rw [replaceAll_cons_neg _ _ _ _ _ (by
                    intro hp
                    obtain ⟨-, hp2⟩ := List.cons_prefix_cons.mp hp
                    obtain ⟨-, hp3⟩ := List.cons_prefix_cons.mp hp2
                    exact hm2 hp3)]
                  rw [replaceAll_cons_neg _ _ _ _ _
                    (not_prefix_of_head_ne _ _ _ _ (by decide))]
                have hr1 : ¬ (b :: w2) <+:
                    replaceAll '√' ('ï' :: (a :: w1)) ('\'' :: (a :: w1)) X := by
                  intro hp
                  exact hm2 (prefix_replaceAll_reflect '√' ('ï' :: (a :: w1)) '\''
                    (a :: w1) X (b :: w2) (fun x hx => (hw2 x hx).2) hp)
                have hr2 : ¬ (a :: w1) <+:
                    replaceAll '√' ('ï' :: (b :: w2)) ('\'' :: (b :: w2)) X := by
                  intro hp
                  exact hm1 (prefix_replaceAll_reflect '√' ('ï' :: (b :: w2)) '\''
                    (b :: w2) X (a :: w1) (fun x hx => (hw1 x hx).2) hp)
                have f3 : replaceAll '√' ('ï' :: (b :: w2)) ('\'' :: (b :: w2))
                    ('√' :: 'ï' ::
                      replaceAll '√' ('ï' :: (a :: w1)) ('\'' :: (a :: w1)) X) =
                    '√' :: 'ï' ::
                      replaceAll '√' ('ï' :: (b :: w2)) ('\'' :: (b :: w2))
                        (replaceAll '√' ('ï' :: (a :: w1)) ('\'' :: (a :: w1)) X) := by
                  rw [replaceAll_cons_neg _ _ _ _ _ (by
                    intro hp
                    obtain ⟨-, hp2⟩ := List.cons_prefix_cons.mp hp
                    obtain ⟨-, hp3⟩ := List.cons_prefix_cons.mp hp2
                    exact hr1 hp3)]
                  rw [replaceAll_cons_neg _ _ _ _ _
                    (not_prefix_of_head_ne _ _ _ _ (by decide))]
                have f4 : replaceAll '√' ('ï' :: (a :: w1)) ('\'' :: (a :: w1))
                    ('√' :: 'ï' ::
                      replaceAll '√' ('ï' :: (b :: w2)) ('\'' :: (b :: w2)) X) =
                    '√' :: 'ï' ::
                      replaceAll '√' ('ï' :: (a :: w1)) ('\'' :: (a :: w1))
                        (replaceAll '√' ('ï' :: (b :: w2)) ('\'' :: (b :: w2)) X) := by
                  rw [replaceAll_cons_neg _ _ _ _ _ (by
                    intro hp
                    obtain ⟨-, hp2⟩ := List.cons_prefix_cons.mp hp
                    obtain ⟨-, hp3⟩ := List.cons_prefix_cons.mp hp2
                    exact hr2 hp3)]
                  rw [replaceAll_cons_neg _ _ _ _ _
                    (not_prefix_of_head_ne _ _ _ _ (by decide))]
                rw [f1, f2, f3, f4, ih X hlen]
          · have hlen : (d :: X).length ≤ n := by
              simp only [List.length_cons] at hs ⊢
              omega
            have n1 : ¬ ('√' :: 'ï' :: (a :: w1)) <+: ('√' :: d :: X) := by
              intro hp
              obtain ⟨-, hp2⟩ := List.cons_prefix_cons.mp hp
              exact hd (List.cons_prefix_cons.mp hp2).1.symm
            have n2 : ¬ ('√' :: 'ï' :: (b :: w2)) <+: ('√' :: d :: X) := by
              intro hp
              obtain ⟨-, hp2⟩ := List.cons_prefix_cons.mp hp
              exact hd (List.cons_prefix_cons.mp hp2).1.symm
            have hh1 : ∀ y Y, replaceAll '√' ('ï' :: (a :: w1)) ('\'' :: (a :: w1))
                (d :: X) = y :: Y → y ≠ 'ï' := by
              intro y Y hEq
              rcases replaceAll_cons_head '√' ('ï' :: (a :: w1)) '\'' (a :: w1) d X
                with ⟨Z, hZ | hZ⟩
              · rw [hZ] at hEq
                injection hEq with hy _
                rw [← hy]
                decide
              · rw [hZ] at hEq
                injection hEq with hy _
                rw [← hy]
                exact hd
            have hh2 : ∀ y Y, replaceAll '√' ('ï' :: (b :: w2)) ('\'' :: (b :: w2))
                (d :: X) = y :: Y → y ≠ 'ï' := by
              intro y Y hEq
              rcases replaceAll_cons_head '√' ('ï' :: (b :: w2)) '\'' (b :: w2) d X
                with ⟨Z, hZ | hZ⟩
              · rw [hZ] at hEq
                injection hEq with hy _
                rw [← hy]
                decide
              · rw [hZ] at hEq
                injection hEq with hy _
                rw [← hy]
                exact hd
            have g1 : replaceAll '√' ('ï' :: (a :: w1)) ('\'' :: (a :: w1))
                ('√' :: d :: X) =
                '√' :: replaceAll '√' ('ï' :: (a :: w1)) ('\'' :: (a :: w1)) (d :: X) :=
              replaceAll_cons_neg _ _ _ _ _ n1
            have g2 : replaceAll '√' ('ï' :: (b :: w2)) ('\'' :: (b :: w2))
                ('√' :: d :: X) =
                '√' :: replaceAll '√' ('ï' :: (b :: w2)) ('\'' :: (b :: w2)) (d :: X) :=
              replaceAll_cons_neg _ _ _ _ _ n2
            have g3 : replaceAll '√' ('ï' :: (b :: w2)) ('\'' :: (b :: w2))
                ('√' :: replaceAll '√' ('ï' :: (a :: w1)) ('\'' :: (a :: w1)) (d :: X)) =
                '√' :: replaceAll '√' ('ï' :: (b :: w2)) ('\'' :: (b :: w2))
                  (replaceAll '√' ('ï' :: (a :: w1)) ('\'' :: (a :: w1)) (d :: X)) :=
              replaceAll_cons_neg _ _ _ _ _ (not_prefix_family _ _ hh1)
            have g4 : replaceAll '√' ('ï' :: (a :: w1)) ('\'' :: (a :: w1))
                ('√' :: replaceAll '√' ('ï' :: (b :: w2)) ('\'' :: (b :: w2)) (d :: X)) =
                '√' :: replaceAll '√' ('ï' :: (a :: w1)) ('\'' :: (a :: w1))
                  (replaceAll '√' ('ï' :: (b :: w2)) ('\'' :: (b :: w2)) (d :: X)) :=
              replaceAll_cons_neg _ _ _ _ _ (not_prefix_family _ _ hh2)
            rw [g1, g2, g3, g4, ih (d :: X) hlen]
      · have hlen : cs.length ≤ n := by
          simp only [List.length_cons] at hs
          omega
        rw [replaceAll_cons_neg _ _ _ _ _ (not_prefix_of_head_ne _ _ _ _ hc),
          replaceAll_cons_neg _ _ _ _ _ (not_prefix_of_head_ne _ _ _ _ hc),
          replaceAll_cons_neg _ _ _ _ _ (not_prefix_of_head_ne _ _ _ _ hc),
          replaceAll_cons_neg _ _ _ _ _ (not_prefix_of_head_ne _ _ _ _ hc),
          ih cs hlen]

theorem comm_family_empty (a : Char) (w1 : Chars)
    (hw1 : ∀ c ∈ (a :: w1), c ≠ '√') :
    ∀ (n : Nat) (s : Chars), s.length ≤ n →
      replaceAll '√' ['ï'] ['\'']
        (replaceAll '√' ('ï' :: (a :: w1)) ('\'' :: (a :: w1)) s) =
      replaceAll '√' ('ï' :: (a :: w1)) ('\'' :: (a :: w1))
        (replaceAll '√' ['ï'] ['\''] s) := by
  intro n
  induction n with
  | zero =>
    intro s hs
    have h0 : s = [] := List.length_eq_zero.mp (Nat.le_zero.mp hs)
    subst h0
    rfl
  | succ n ih =>
    intro s hs
    cases s with
    | nil => rfl
    | cons c cs =>
      by_cases hc : c = '√'
      · subst hc
        cases cs with
        | nil =>
          have e0 : ∀ (z rep : Chars), replaceAll '√' ('ï' :: z) rep ['√'] = ['√'] := by
            intro z rep
            rw [replaceAll_cons_neg]
            · rfl
            · intro hp
              have hl := hp.length_le
              simp at hl
          simp only [e0]
        | cons d X =>
          by_cases hd : d = 'ï'
          · subst hd
            by_cases hm1 : (a :: w1) <+: X
            · obtain ⟨v, hv⟩ := hm1
              have hlen : v.length ≤ n := by
                have hl := congrArg List.length hv
                simp only [List.length_append, List.length_cons] at hl
                simp only [List.length_cons] at hs
                omega
              rw [← hv]
              have e1 : replaceAll '√' ('ï' :: (a :: w1)) ('\'' :: (a :: w1))
                  ('√' :: 'ï' :: ((a :: w1) ++ v)) =
                  ('\'' :: (a :: w1)) ++
                    replaceAll '√' ('ï' :: (a :: w1)) ('\'' :: (a :: w1)) v :=
                replaceAll_pattern '√' ('ï' :: (a :: w1)) ('\'' :: (a :: w1)) v
              have e2 : ∀ Z, replaceAll '√' ['ï'] ['\'']
                  (('\'' :: (a :: w1)) ++ Z) =
                  ('\'' :: (a :: w1)) ++ replaceAll '√' ['ï'] ['\''] Z := by
                intro Z
                apply replaceAll_skip
                intro x hx
                rcases List.mem_cons.mp hx with h | h
                · subst h
                  decide
                · exact hw1 x h
              have e3 : replaceAll '√' ['ï'] ['\'']
                  ('√' :: 'ï' :: ((a :: w1) ++ v)) =
                  ('\'' :: (a :: w1)) ++ replaceAll '√' ['ï'] ['\''] v := by
                have h0 := replaceAll_pattern '√' ['ï'] ['\''] ((a :: w1) ++ v)
                rw [show ('√' :: 'ï' :: ((a :: w1) ++ v) : Chars) =
                  '√' :: (['ï'] ++ ((a :: w1) ++ v)) from rfl, h0,
                  replaceAll_skip '√' ['ï'] ['\''] (a :: w1) v hw1]
                rfl
              have e4 : ∀ Z, replaceAll '√' ('ï' :: (a :: w1)) ('\'' :: (a :: w1))
                  (('\'' :: (a :: w1)) ++ Z) =
                  ('\'' :: (a :: w1)) ++
                    replaceAll '√' ('ï' :: (a :: w1)) ('\'' :: (a :: w1)) Z := by
                intro Z
                apply replaceAll_skip
                intro x hx
                rcases List.mem_cons.mp hx with h | h
                · subst h
                  decide
                · exact hw1 x h
              rw [e1, e2, e3, e4, ih v hlen]
            · have hlen : X.length ≤ n := by
                simp only [List.length_cons] at hs
                omega
              have f1 : replaceAll '√' ('ï' :: (a :: w1)) ('\'' :: (a :: w1))
                  ('√' :: 'ï' :: X) =
                  '√' :: 'ï' ::
                    replaceAll '√' ('ï' :: (a :: w1)) ('\'' :: (a :: w1)) X := by
                rw [replaceAll_cons_neg _ _ _ _ _ (by
                  intro hp
                  obtain ⟨-, hp2⟩ := List.cons_prefix_cons.mp hp
                  obtain ⟨-, hp3⟩ := List.cons_prefix_cons.mp hp2
                  exact hm1 hp3)]
                rw [replaceAll_cons_neg _ _ _ _ _
                  (not_prefix_of_head_ne _ _ _ _ (by decide))]
              have e3 : replaceAll '√' ['ï'] ['\''] ('√' :: 'ï' :: X) =
                  '\'' :: replaceAll '√' ['ï'] ['\''] X :=
                replaceAll_pattern '√' ['ï'] ['\''] X
              have f3 : replaceAll '√' ['ï'] ['\'']
                  ('√' :: 'ï' ::
                    replaceAll '√' ('ï' :: (a :: w1)) ('\'' :: (a :: w1)) X) =
                  '\'' :: replaceAll '√' ['ï'] ['\'']
                    (replaceAll '√' ('ï' :: (a :: w1)) ('\'' :: (a :: w1)) X) :=
                replaceAll_pattern '√' ['ï'] ['\''] _
              have e5 : replaceAll '√' ('ï' :: (a :: w1)) ('\'' :: (a :: w1))
                  ('\'' :: replaceAll '√' ['ï'] ['\''] X) =
                  '\'' :: replaceAll '√' ('ï' :: (a :: w1)) ('\'' :: (a :: w1))
                    (replaceAll '√' ['ï'] ['\''] X) :=
                replaceAll_cons_neg _ _ _ _ _
                  (not_prefix_of_head_ne _ _ _ _ (by decide))
              rw [f1, f3, e3, e5, ih X hlen]
          · have hlen : (d :: X).length ≤ n := by
              simp only [List.length_cons] at hs ⊢
              omega
            have n1 : ¬ ('√' :: 'ï' :: (a :: w1)) <+: ('√' :: d :: X) := by
              intro hp
              obtain ⟨-, hp2⟩ := List.cons_prefix_cons.mp hp
              exact hd (List.cons_prefix_cons.mp hp2).1.symm
            have n2 : ¬ ('√' :: 'ï' :: ([] : Chars)) <+: ('√' :: d :: X) := by
              intro hp
              obtain ⟨-, hp2⟩ := List.cons_prefix_cons.mp hp
              exact hd (List.cons_prefix_cons.mp hp2).1.symm
            have hh1 : ∀ y Y, replaceAll '√' ('ï' :: (a :: w1)) ('\'' :: (a :: w1))
                (d :: X) = y :: Y → y ≠ 'ï' := by
              intro y Y hEq
              rcases replaceAll_cons_head '√' ('ï' :: (a :: w1)) '\'' (a :: w1) d X
                with ⟨Z, hZ | hZ⟩
              · rw [hZ] at hEq
                injection hEq with hy _
                rw [← hy]
                decide
              · rw [hZ] at hEq
                injection hEq with hy _
                rw [← hy]
                exact hd
            have hh2 : ∀ y Y, replaceAll '√' ['ï'] ['\''] (d :: X) = y :: Y →
                y ≠ 'ï' := by
              intro y Y hEq
              rcases replaceAll_cons_head '√' ['ï'] '\'' [] d X
                with ⟨Z, hZ | hZ⟩
              · rw [hZ] at hEq
                injection hEq with hy _
                rw [← hy]
                decide
              · rw [hZ] at hEq
                injection hEq with hy _
                rw [← hy]
                exact hd
            have g1 : replaceAll '√' ('ï' :: (a :: w1)) ('\'' :: (a :: w1))
                ('√' :: d :: X) =
                '√' :: replaceAll '√' ('ï' :: (a :: w1)) ('\'' :: (a :: w1)) (d :: X) :=
              replaceAll_cons_neg _ _ _ _ _ n1
            have g2 : replaceAll '√' ['ï'] ['\''] ('√' :: d :: X) =
                '√' :: replaceAll '√' ['ï'] ['\''] (d :: X) :=
              replaceAll_cons_neg _ _ _ _ _ n2
            have g3 : replaceAll '√' ['ï'] ['\'']
                ('√' :: replaceAll '√' ('ï' :: (a :: w1)) ('\'' :: (a :: w1)) (d :: X)) =
                '√' :: replaceAll '√' ['ï'] ['\'']
                  (replaceAll '√' ('ï' :: (a :: w1)) ('\'' :: (a :: w1)) (d :: X)) :=
              replaceAll_cons_neg _ _ _ _ _ (not_prefix_family _ _ hh1)
            have g4 : replaceAll '√' ('ï' :: (a :: w1)) ('\'' :: (a :: w1))
                ('√' :: replaceAll '√' ['ï'] ['\''] (d :: X)) =
                '√' :: replaceAll '√' ('ï' :: (a :: w1)) ('\'' :: (a :: w1))
                  (replaceAll '√' ['ï'] ['\''] (d :: X)) :=
              replaceAll_cons_neg _ _ _ _ _ (not_prefix_family _ _ hh2)
            rw [g1, g2, g3, g4, ih (d :: X) hlen]
      · have hlen : cs.length ≤ n := by
          simp only [List.length_cons] at hs
          omega
        rw [replaceAll_cons_neg _ _ _ _ _ (not_prefix_of_head_ne _ _ _ _ hc),
          replaceAll_cons_neg _ _ _ _ _ (not_prefix_of_head_ne _ _ _ _ hc),
          replaceAll_cons_neg _ _ _ _ _ (not_prefix_of_head_ne _ _ _ _ hc),
          replaceAll_cons_neg _ _ _ _ _ (not_prefix_of_head_ne _ _ _ _ hc),
          ih cs hlen]

theorem applyRule_comm :
    ∀ r1 ∈ replacements, ∀ r2 ∈ replacements, ∀ (s : Chars),
      applyRule (applyRule s r1) r2 = applyRule (applyRule s r2) r1 := by
  intro r1 h1 r2 h2 s
  fin_cases h1 <;> fin_cases h2 <;>
    simp only [applyRule_eq_replaceAll] <;>
    first
    | rfl
    | exact comm_single_single _ _ _ _ (by decide) (by decide) (by decide) _
    | exact comm_single_multi _ _ _ _ _ (by decide) (by decide) (by decide) _
    | exact (comm_single_multi _ _ _ _ _ (by decide) (by decide) (by decide) _).symm
    | exact comm_family_ne _ _ _ _ (by decide) (by decide) (by decide)
        (replaceAll '√' ['ï'] ['\''] s).length _ (Nat.le_refl _)
    | exact comm_family_ne _ _ _ _ (by decide) (by decide) (by decide) s.length s
        (Nat.le_refl _)
    | exact comm_family_empty _ _ (by decide) s.length s (Nat.le_refl _)
    | exact (comm_family_empty _ _ (by decide) s.length s (Nat.le_refl _)).symm

theorem foldl_applyRule_perm (perm : List (Chars × Chars)) (content : Chars)
    (h : perm.Perm replacements) :
    perm.foldl applyRule content = replacements.foldl applyRule content :=
  List.Perm.foldl_eq' h
    (fun x hx y hy z => applyRule_comm x (h.subset hx) y (h.subset hy) z) content

/-! ## Claim theorems -/

theorem exists_append_extend (P Q X : Chars) (h : ∃ r, Q = P ++ r) :
    ∃ r, Q ++ X = P ++ r := by
  obtain ⟨r, hr⟩ := h
  exact ⟨r ++ X, by rw [hr, List.append_assoc]⟩

/-- C1 (counterexample): the claim that attribute-context quotes are
escaped is false on the code: escape leaves the double quote unchanged,
and a Documents ID containing a double quote reaches the id attribute of
the rendered text element raw, breaking well-formedness. -/
theorem C1_escape_counterexample :
    escape (("\"").data) = ("\"").data ∧
    (build_record_xml demoRow [] (("\n").data)).1.take 23 =
      ("        <text id=\"a\"b\">").data := by
  refine ⟨rfl, ?_⟩
  rfl

/-- C1 (amended): every textual value inserted into the XML passes
through escape, which rewrites exactly the three characters amp, lt, gt
character by character and leaves all others - including both quote
characters - unchanged; hence no raw angle bracket survives, but quotes
are not escaped even in the id attribute, into which the escaped
Documents ID is inserted verbatim. -/
theorem C1_escape_amended :
    (∀ s : Chars, escape s = escFlat s) ∧
    (∀ (s : Chars) (c : Char), c ∈ escape s → c ≠ '<' ∧ c ≠ '>') ∧
    (∀ (row : Row) (t nlp : Chars), ∃ rest,
      (build_record_xml row t nlp).1 =
        INDTEXT ++ ("<text id=\"").data ++
          escape (pyStrip (rowGet row ("Documents ID"))) ++
          ("\">").data ++ nlp ++ rest) ∧
    escape (("\"").data) = ("\"").data ∧
    escape (("'").data) = ("'").data := by
  refine ⟨escape_eq_escFlat, mem_escape_not_angle, ?_, rfl, rfl⟩
  intro row t nlp
  simp only [build_record_xml]
  iterate 117 apply exists_append_extend
  refine ⟨[], ?_⟩
  rw [List.append_nil]
  simp only [field]

theorem C1_escape_amended_witness :
    ('a' ∈ escape (("a<b").data)) ∧ ('a' ≠ '<' ∧ 'a' ≠ '>') :=
  ⟨by decide, C1_escape_amended.2.1 (("a<b").data) 'a' (by decide)⟩

/-- C2: for every transcript, the number of parsed turns equals the
number of question-marker lines plus answer-marker lines (patterns
anchored at line start after optional whitespace, upper case only); a
transcript with zero marker lines, in particular the empty transcript,
yields no turns. -/
theorem C2_turn_count :
    (∀ text : Chars, (parse_transcript_to_turns text).length =
      countQLines text + countALines text) ∧
    (∀ text : Chars, countQLines text = 0 → countALines text = 0 →
      parse_transcript_to_turns text = []) ∧
    parse_transcript_to_turns (("").data) = [] := by
  refine ⟨parse_length_eq, ?_, by decide⟩
  intro text h1 h2
  have hl := parse_length_eq text
  rw [h1, h2] at hl
  exact List.length_eq_zero.mp (by omega)

theorem C2_turn_count_witness :
    countQLines (("no markers q1: x a1: y").data) = 0 ∧
    countALines (("no markers q1: x a1: y").data) = 0 ∧
    parse_transcript_to_turns (("no markers q1: x a1: y").data) = [] :=
  ⟨by decide, by decide,
   C2_turn_count.2.1 (("no markers q1: x a1: y").data) (by decide) (by decide)⟩

/-- C3: for every run, the two totals embedded in the generated header
block equal the sums over all records of the per-record question and
answer counts returned by the record renderer. -/
theorem C3_header_totals (df : RawFrame) (ts : Chars → Option Chars) (f : Frame)
    (h : read_metadata df = Except.ok f) :
    ∃ g : GenResult, generate_corhoh_xml df ts = Except.ok g ∧
      g.total_q = ((toRecords f).map (qFor ts)).sum ∧
      g.total_a = ((toRecords f).map (aFor ts)).sum ∧
      g.out =
        ("<?xml version=\"1.0\" encoding=\"UTF-8\"?>\n").data ++
        ("<TEI xmlns=\"http://www.tei-c.org/ns/1.0\">\n").data ++
        fixed_header_block (((toRecords f).map (qFor ts)).sum)
          (((toRecords f).map (aFor ts)).sum) (("\n").data) ++
        ("\n").data ++ INDCORHOH ++ ("<CORHOH>\n").data ++
        (List.intercalate (("\n").data) g.records ++ ("\n").data) ++
        INDCORHOH ++ ("</CORHOH>\n").data ++
        ("</TEI>\n").data :=
  ⟨_, generate_ok df ts f h, rfl, rfl, rfl⟩

theorem C3_header_totals_witness :
    read_metadata (RawFrame.mk [("Documents ID" : String)] [[some (("D1").data)]]) =
      Except.ok (Frame.mk [("Documents ID" : String)] [[("D1").data]]) ∧
    ∃ g : GenResult,
      generate_corhoh_xml
        (RawFrame.mk [("Documents ID" : String)] [[some (("D1").data)]])
        (fun _ => none) = Except.ok g ∧
      g.total_q =
        ((toRecords (Frame.mk [("Documents ID" : String)] [[("D1").data]])).map
          (qFor (fun _ => none))).sum :=
  ⟨rfl,
   match C3_header_totals
     (RawFrame.mk [("Documents ID" : String)] [[some (("D1").data)]])
     (fun _ => none)
     (Frame.mk [("Documents ID" : String)] [[("D1").data]]) rfl with
   | ⟨g, h1, h2, _, _⟩ => ⟨g, h1, h2⟩⟩

/-- C4: for every record and transcript, the question count plus the
answer count returned by the renderer equals the number of parsed
turns. -/
theorem C4_counts_sum_turns (row : Row) (text nlp : Chars) :
    (build_record_xml row text nlp).2.1 + (build_record_xml row text nlp).2.2 =
      (parse_transcript_to_turns text).length := by
  simp only [build_record_xml]
  exact countP_question_answer _ (parse_good text)

/-- C5: the transcript Q1 colon Hello, a continuation line, then A1
colon Hi there parses to exactly the two expected turns in order. -/
theorem C5_example_parse :
    parse_transcript_to_turns (("Q1: Hello\nworld\nA1: Hi there").data) =
      [(("question").data, ("Q1").data, ("Hello\nworld").data),
       (("answer").data, ("A1").data, ("Hi there").data)] := by
  decide

/-- C6: a record whose identifier has no transcript file is still
processed: the run succeeds, its text element (rendered from the empty
transcript, with zero per-turn div children) is among the emitted
records, it contributes zero to both totals, and exactly the missing
records produce missing-transcript warnings, one each, in order. -/
theorem C6_missing_transcript (df : RawFrame) (ts : Chars → Option Chars)
    (f : Frame) (row : Row)
    (hok : read_metadata df = Except.ok f)
    (hrow : row ∈ toRecords f)
    (hmiss : ts (docIdOf row) = none) :
    ∃ g : GenResult, generate_corhoh_xml df ts = Except.ok g ∧
      (build_record_xml row [] (("\n").data)).1 ∈ g.records ∧
      (build_record_xml row [] (("\n").data)).2.1 = 0 ∧
      (build_record_xml row [] (("\n").data)).2.2 = 0 ∧
      (parse_transcript_to_turns []).map (div_block (("\n").data)) = [] ∧
      docIdOf row ∈ g.missingIds ∧
      g.missingIds = ((toRecords f).filter (missingB ts)).map docIdOf := by
  refine ⟨_, generate_ok df ts f hok, ?_, rfl, rfl, rfl, ?_, rfl⟩
  · have hrec : recXmlFor ts row = (build_record_xml row [] (("\n").data)).1 := by
      rw [recXmlFor, transcriptFor_none ts row hmiss]
    rw [← hrec]
    exact List.mem_map_of_mem _ hrow
  · apply List.mem_map_of_mem
    rw [List.mem_filter]
    refine ⟨hrow, ?_⟩
    simp [missingB, hmiss]

theorem C6_missing_transcript_witness :
    read_metadata (RawFrame.mk [("Documents ID" : String)] [[some (("D1").data)]]) =
      Except.ok (Frame.mk [("Documents ID" : String)] [[("D1").data]]) ∧
    ([(("Documents ID" : String), ("D1").data)] ∈
      toRecords (Frame.mk [("Documents ID" : String)] [[("D1").data]])) ∧
    ∃ g : GenResult,
      generate_corhoh_xml
        (RawFrame.mk [("Documents ID" : String)] [[some (("D1").data)]])
        (fun _ => none) = Except.ok g ∧
      docIdOf [(("Documents ID" : String), ("D1").data)] ∈ g.missingIds :=
  ⟨rfl, by decide,
   match C6_missing_transcript
     (RawFrame.mk [("Documents ID" : String)] [[some (("D1").data)]])
     (fun _ => none)
     (Frame.mk [("Documents ID" : String)] [[("D1").data]])
     [(("Documents ID" : String), ("D1").data)] rfl (by decide) rfl with
   | ⟨g, h1, _, _, _, _, h6, _⟩ => ⟨g, h1, h6⟩⟩

/-- C7: the legacy-encoding repair pass is order-independent in effect:
folding the substitution rules over the decoded text in any order (any
permutation of the table) gives the same result as the insertion-order
pass applied by smart_read. -/
theorem C7_order_independent (perm : List (Chars × Chars)) (content : Chars)
    (h : perm.Perm replacements) :
    perm.foldl applyRule content = clean_content content := by
  rw [clean_content]
  exact foldl_applyRule_perm perm content h

theorem C7_order_independent_witness :
    (replacements.reverse).Perm replacements ∧
    (replacements.reverse).foldl applyRule (("√ït and Õ and √ï").data) =
      clean_content (("√ït and Õ and √ï").data) :=
  ⟨List.reverse_perm replacements,
   C7_order_independent (replacements.reverse) (("√ït and Õ and √ï").data)
     (List.reverse_perm replacements)⟩

/-- C8: the metadata loader fails exactly when the mandatory Documents
ID column is absent; when it is present the rows are returned with the
cells as strings and missing cells as the empty string. -/
theorem C8_read_metadata (df : RawFrame) :
    ((∃ f, read_metadata df = Except.ok f) ↔
      ("Documents ID" : String) ∈ df.columns) ∧
    (∀ f, read_metadata df = Except.ok f →
      f.columns = df.columns ∧
      f.cells = df.cells.map (fun r => r.map (fun cell => cell.getD []))) ∧
    (("Documents ID" : String) ∉ df.columns →
      read_metadata df =
        Except.error "Metadata file must contain a Documents ID column.") := by
  refine ⟨⟨?_, ?_⟩, ?_, ?_⟩
  · rintro ⟨f, hf⟩
    by_cases h : ("Documents ID" : String) ∈ df.columns
    · exact h
    · simp only [read_metadata, if_neg h] at hf
      exact Except.noConfusion hf
  · intro h
    exact ⟨⟨df.columns, df.cells.map (fun r => r.map (fun cell => cell.getD []))⟩,
      by simp only [read_metadata, if_pos h]⟩
  · intro f hf
    by_cases h : ("Documents ID" : String) ∈ df.columns
    · simp only [read_metadata, if_pos h, Except.ok.injEq] at hf
      rw [← hf]
      exact ⟨rfl, rfl⟩
    · simp only [read_metadata, if_neg h] at hf
      exact Except.noConfusion hf
  · intro h
    simp only [read_metadata, if_neg h]

theorem C8_read_metadata_witness :
    (("Documents ID" : String) ∉ ([("Name" : String)] : List String)) ∧
    read_metadata (RawFrame.mk [("Name" : String)] [[none]]) =
      Except.error "Metadata file must contain a Documents ID column." :=
  ⟨by decide,
   (C8_read_metadata (RawFrame.mk [("Name" : String)] [[none]])).2.2 (by decide)⟩

/-- C9: the transformation is deterministic: the produced document text
is a function of the metadata table and the transcript contents alone,
so two runs over pointwise-equal transcript stores give byte-identical
output. -/
theorem C9_deterministic (df : RawFrame) (ts1 ts2 : Chars → Option Chars)
    (h : ∀ k, ts1 k = ts2 k) :
    generate_corhoh_xml df ts1 = generate_corhoh_xml df ts2 := by
  have he : ts1 = ts2 := funext h
  rw [he]

theorem C9_deterministic_witness :
    generate_corhoh_xml
        (RawFrame.mk [("Documents ID" : String)] [[some (("D1").data)]])
        (fun _ => none) =
      generate_corhoh_xml
        (RawFrame.mk [("Documents ID" : String)] [[some (("D1").data)]])
        (fun k => if k = k then none else some []) :=
  C9_deterministic _ _ _ (fun k => by simp)

/-- C10: every turn returned by the parser has kind question or answer,
and its label is the matching marker letter followed by one or more
digits, so the kind is recoverable from the first label character. -/
theorem C10_turn_wellformed (text : Chars) (t : Turn)
    (h : t ∈ parse_transcript_to_turns text) : goodTurn t :=
  parse_good text t h

theorem C10_turn_wellformed_witness :
    ((("question").data, ("Q1").data, ("hi").data) ∈
      parse_transcript_to_turns (("Q1: hi").data)) ∧
    goodTurn ((("question").data, ("Q1").data, ("hi").data)) :=
  ⟨by decide,
   C10_turn_wellformed (("Q1: hi").data)
     ((("question").data, ("Q1").data, ("hi").data)) (by decide)⟩
